import Mathlib

/-!
Verification of the Panel2EPUB page-layout engine (`convert_to_epub.py`).

The development shallowly embeds the pure layout logic of the pipeline:

* the name sanitizer `sanitize_name`;
* the double-page splitter of `generate_xhtml_pages` (ratio classification,
  crop boxes, role-to-crop mapping, generated filenames, failure fallback),
  with the directory of image/xhtml files modelled as explicit lists of
  filenames and the point of a cropping/saving exception modelled as an
  explicit operation index;
* the spine/manifest state machine of `generate_content_opf`
  (`last_side`/`next_side`/`blank_counter`, cover handling, `_a`/`_b`
  pair detection, blank-page insertion), with the existence of a generated
  page document modelled as a boolean function of its sanitized base name;
* the archive layout rule of `create_epub_from_temp`.

Machine integers do not occur: all dimensions are natural numbers and the
ratio test is carried out over `ℚ` (Python compares `width / height` to the
threshold; the embedding states the same comparison exactly over `ℚ`).
Filenames are `List Char`, split into base and extension as by
`os.path.splitext`.
-/

namespace Panel2EPUB

/-- Facing side tag written into a spine itemref (`page-spread-left`,
`page-spread-right` or `page-spread-center`). -/
inductive Side
  | left
  | right
  | center
  deriving DecidableEq, Repr

/-- Reading direction after the normalization both pipeline stages perform
(`reading_direction.lower()`; anything other than `"rtl"`/`"ltr"` falls back
to `rtl`). -/
inductive Dir
  | rtl
  | ltr
  deriving DecidableEq, Repr

/-- One file of `temp/OEBPS/Images`, as decomposed by `os.path.splitext`:
`base` is the filename without its extension, `ext` the extension including
the leading dot. -/
structure Img where
  base : List Char
  ext : List Char
  deriving DecidableEq, Repr

/-- The full filename of an image file (what `os.listdir` returns). -/
def fname (f : Img) : List Char := f.base ++ f.ext

/-- `str.lower()` applied to a filename fragment. -/
def lowerName (s : List Char) : List Char := s.map Char.toLower

/-- The character class kept unchanged by `sanitize_name`:
`c.isalnum() or c in ("_", "-")`.  `Char.isAlphanum` stands for Python's
per-character `str.isalnum`. -/
def keepChar (c : Char) : Bool := c.isAlphanum || c == '_' || c == '-'

/-- One character of `sanitize_name`: kept if in the safe class, otherwise
replaced by an underscore. -/
def sanitizeChar (c : Char) : Char := if keepChar c then c else '_'

/-- `sanitize_name` from `convert_to_epub.py` (defined identically inside
`generate_xhtml_pages` and `generate_content_opf`): every character that is
not alphanumeric, an underscore or a hyphen becomes an underscore. -/
def sanitize_name (s : List Char) : List Char := s.map sanitizeChar

/-- `reading_direction.lower()` followed by the membership test against
`("rtl", "ltr")`; invalid input defaults to rtl. -/
def normalize_direction (s : List Char) : Dir :=
  if lowerName s = ("rtl".toList) then Dir.rtl
  else if lowerName s = ("ltr".toList) then Dir.ltr
  else Dir.rtl

/-! ### Double-page splitter (`generate_xhtml_pages`) -/

/-- A PIL crop box `(left, upper, right, lower)`. -/
structure Box where
  left : Nat
  upper : Nat
  right : Nat
  lower : Nat
  deriving DecidableEq, Repr

/-- Width of the image produced by cropping to a box. -/
def crop_width (b : Box) : Nat := b.right - b.left

/-- Height of the image produced by cropping to a box. -/
def crop_height (b : Box) : Nat := b.lower - b.upper

/-- `box_left = (0, 0, half_width, img_height)` with `half_width = width // 2`. -/
def box_left (w h : Nat) : Box := ⟨0, 0, w / 2, h⟩

/-- `box_right = (half_width, 0, img_width, img_height)`. -/
def box_right (w h : Nat) : Box := ⟨w / 2, 0, w, h⟩

/-- `ratio = img_width / img_height if img_height > 0 else 0.0`, over `ℚ`. -/
def page_ratio (w h : Nat) : ℚ := if 0 < h then (w : ℚ) / (h : ℚ) else 0

/-- `is_double = ratio >= double_page_ratio`. -/
def is_double (w h : Nat) (threshold : ℚ) : Bool :=
  decide (threshold ≤ page_ratio w h)

/-- The `parts` list built inside the double-page branch: `(suffix letter,
crop box)` in the order the code writes the halves.  LTR maps `a` to the
left crop and `b` to the right crop; RTL maps `a` to the right crop and `b`
to the left crop. -/
def split_parts (rd : Dir) (w h : Nat) : List (Char × Box) :=
  match rd with
  | Dir.ltr => [('a', box_left w h), ('b', box_right w h)]
  | Dir.rtl => [('a', box_right w h), ('b', box_left w h)]

/-- The classification step of `generate_xhtml_pages`: an image enters the
split branch iff `is_double and img_width > 1`; the result is the list of
halves it will produce, or `none` for a single page. -/
def split_plan (rd : Dir) (threshold : ℚ) (w h : Nat) : Option (List (Char × Box)) :=
  if is_double w h threshold ∧ 1 < w then some (split_parts rd w h) else none

/-- `part_img_name = f"{safe_base}_{suffix_letter}{ext}"` — the filename of a
saved half, with the original extension preserved verbatim. -/
def part_file_name (safe_base : List Char) (letter : Char) (ext : List Char) : List Char :=
  safe_base ++ ['_', letter] ++ ext

/-- `f"page_{name}_F.xhtml"` — the page document filename generated for a
(sanitized) base name. -/
def page_doc_name (safe : List Char) : List Char :=
  ("page_".toList) ++ safe ++ ("_F.xhtml".toList)

/-- The contents of the two staging directories touched by the splitter:
filenames present in `temp/OEBPS/Images` and in `temp/OEBPS/Text`. -/
structure FS where
  images : List (List Char)
  texts : List (List Char)
  deriving DecidableEq, Repr

/-- One side effect inside the `try` block of the double-page branch:
saving a cropped half image, or writing a half's page document. -/
inductive SplitOp
  | saveImage (name : List Char) (box : Box)
  | saveText (name : List Char)
  deriving DecidableEq, Repr

/-- Apply one effect to the staging directories. -/
def apply_op (fs : FS) : SplitOp → FS
  | SplitOp.saveImage nm _ => { fs with images := fs.images ++ [nm] }
  | SplitOp.saveText nm => { fs with texts := fs.texts ++ [nm] }

/-- The effects performed for one `(letter, box)` entry of `parts`:
`cropped.save(part_img_path)` followed by writing `page_<part_base>_F.xhtml`. -/
def part_ops (safe ext : List Char) (p : Char × Box) : List SplitOp :=
  [SplitOp.saveImage (part_file_name safe p.1 ext) p.2,
   SplitOp.saveText (page_doc_name (safe ++ ['_', p.1]))]

/-- The ordered effect list of a whole split attempt (the body of the
`for suffix_letter, side, box in parts` loop). -/
def split_ops (rd : Dir) (w h : Nat) (safe ext : List Char) : List SplitOp :=
  ((split_parts rd w h).map (part_ops safe ext)).flatten

/-- The double-page branch of `generate_xhtml_pages` for one image whose
ratio test succeeded.  `failAt = none` models a run of the `try` block with
no exception: all four effects happen, no page document is generated for the
original, and the original image file is removed.  `failAt = some n` models
an exception raised after exactly `n` effects: the effects already performed
persist, `is_double` is reset to `False`, and the single-page fallback then
writes a page document for the original image, which is kept. -/
def process_double_image (rd : Dir) (w h : Nat) (failAt : Option Nat)
    (orig : Img) (fs : FS) : FS :=
  let safe := sanitize_name orig.base
  let ops := split_ops rd w h safe orig.ext
  match failAt with
  | none =>
      let fs2 := ops.foldl apply_op fs
      { fs2 with images := fs2.images.erase (fname orig) }
  | some n =>
      let fs2 := (ops.take n).foldl apply_op fs
      { fs2 with texts := fs2.texts ++ [page_doc_name safe] }

/-- The image filenames created by a list of split effects, in order. -/
def ops_images : List SplitOp → List (List Char)
  | [] => []
  | SplitOp.saveImage nm _ :: rest => nm :: ops_images rest
  | SplitOp.saveText _ :: rest => ops_images rest

/-- The page document filenames created by a list of split effects, in order. -/
def ops_texts : List SplitOp → List (List Char)
  | [] => []
  | SplitOp.saveImage _ _ :: rest => ops_texts rest
  | SplitOp.saveText nm :: rest => nm :: ops_texts rest

/-! ### Spine & manifest builder (`generate_content_opf`) -/

/-- One `<itemref>` of the spine: the referenced page id and its
`page-spread-*` side. -/
structure SpineEntry where
  idref : List Char
  side : Side
  deriving DecidableEq, Repr

/-- The mutable state of `generate_content_opf` while it traverses the image
list: side tracking (`last_side`, `next_side`), the blank-page counter, the
manifest item ids and spine entries accumulated so far, the recorded cover
image id, and the number of `Warning:` messages printed. -/
structure OpfState where
  last_side : Option Side
  next_side : Side
  blank_counter : Nat
  manifest : List (List Char)
  spine : List SpineEntry
  cover_image_id : Option (List Char)
  warnings : Nat
  deriving DecidableEq, Repr

/-- The state before the traversal: no side used yet, the first simple page
will appear on the right, and the manifest holds the fixed auxiliary items. -/
def opfInit : OpfState :=
  { last_side := none
    next_side := Side.right
    blank_counter := 0
    manifest := [("nav".toList), ("ncx".toList), ("css".toList)]
    spine := []
    cover_image_id := none
    warnings := 0 }

/-- `next_side = "left" if side == "right" else "right"`. -/
def flip_side (side : Side) : Side :=
  if side = Side.right then Side.left else Side.right

/-- `add_spine_page`: append an itemref and update the side tracking. -/
def add_spine_page (st : OpfState) (page_id : List Char) (side : Side) : OpfState :=
  { st with
    spine := st.spine ++ [SpineEntry.mk page_id side]
    last_side := some side
    next_side := flip_side side }

/-- Manifest/page id of a blank page: `page_blank_<n>`. -/
def blank_id_of (n : Nat) : List Char :=
  ("page_blank_".toList) ++ (toString n).toList

/-- Manifest/spine id of a page document: `page_Images_<safe_name>_F`. -/
def page_id_of (safe : List Char) : List Char :=
  ("page_Images_".toList) ++ safe ++ ("_F".toList)

/-- Manifest id of an image item: `img_Images_<safe_name>`. -/
def img_id_of (safe : List Char) : List Char :=
  ("img_Images_".toList) ++ safe

/-- `add_blank_page`: bump the counter, add the fresh unique blank page to
the manifest, and add it to the spine at the given side via
`add_spine_page`. -/
def add_blank_page (st : OpfState) (side : Side) : OpfState :=
  let blank_id := blank_id_of (st.blank_counter + 1)
  add_spine_page
    { st with
      blank_counter := st.blank_counter + 1
      manifest := st.manifest ++ [blank_id] }
    blank_id side

/-- Splitting of a sanitized name that ends in `_a` or `_b` into its root and
part letter (`safe_name[:-2]`, `safe_name[-1]`); `none` otherwise. -/
def part_split (s : List Char) : Option (List Char × Char) :=
  match s.reverse with
  | c :: '_' :: rest =>
      if c = 'a' ∨ c = 'b' then some (rest.reverse, c) else none
  | _ => none

/-- Detection of the start of an `_a`/`_b` pair: the current sanitized name
ends in `_a` and the immediately following image has sanitized name
`<root>_b` with the same lowercased extension. -/
def is_double_group_start (safe extLower : List Char) (nimg : Img) : Bool :=
  match part_split safe with
  | some (root, letter) =>
      decide (letter = 'a' ∧ sanitize_name nimg.base = root ++ ['_', 'b'] ∧
        lowerName nimg.ext = extLower)
  | none => false

/-- `desired_side_a = "right" if rd == "rtl" else "left"`. -/
def desired_side_a (rd : Dir) : Side :=
  if rd = Dir.rtl then Side.right else Side.left

/-- The guard of the blank insertion before a double spread:
`last_side is not None and next_side != desired_side_a`. -/
def blank_needed (rd : Dir) (st : OpfState) : Bool :=
  st.last_side.isSome && decide (st.next_side ≠ desired_side_a rd)

/-- Emission of one ordinary page: the page document and its image join the
manifest, then the page joins the spine at the current `next_side`. -/
def emit_page (st : OpfState) (page_id img_id : List Char) : OpfState :=
  add_spine_page { st with manifest := st.manifest ++ [page_id, img_id] }
    page_id st.next_side

/-- Blank insertion before a double spread, when the guard holds: the blank
is assigned the current `next_side`. -/
def maybe_blank_before_double (rd : Dir) (st : OpfState) : OpfState :=
  if blank_needed rd st then add_blank_page st st.next_side else st

/-- The double-spread branch of the traversal: optional blank page, then the
`_a` half at the current `next_side`; the `_b` half follows at the flipped
side if its page document exists, otherwise only a warning is printed. -/
def double_step (rd : Dir) (pe : List Char → Bool) (st : OpfState)
    (imgA imgB : Img) : OpfState :=
  let safeA := sanitize_name imgA.base
  let safeB := sanitize_name imgB.base
  let st1 := maybe_blank_before_double rd st
  let st2 := emit_page st1 (page_id_of safeA) (img_id_of safeA)
  if pe safeB then emit_page st2 (page_id_of safeB) (img_id_of safeB)
  else { st2 with warnings := st2.warnings + 1 }

/-- The cover branch: page document and `cover-image` item join the manifest,
the cover page joins the spine centered, and the side tracking is left
untouched. -/
def cover_step (st : OpfState) (img : Img) : OpfState :=
  let safe := sanitize_name img.base
  { st with
    manifest := st.manifest ++ [page_id_of safe, ("cover".toList)]
    cover_image_id := some ("cover".toList)
    spine := st.spine ++ [SpineEntry.mk (page_id_of safe) Side.center] }

/-- The simple-page branch. -/
def single_step (st : OpfState) (img : Img) : OpfState :=
  let safe := sanitize_name img.base
  emit_page st (page_id_of safe) (img_id_of safe)

/-- The `while i < len(image_files)` traversal of `generate_content_opf`.
`pe safe` models `os.path.exists` of `Text/page_<safe>_F.xhtml`; `first`
models `i == 0`.  An image without its page document is skipped with a
warning; the first image becomes the cover when `has_cover` is set; a
detected `_a`/`_b` pair advances by two positions, everything else by one. -/
def opf_loop (rd : Dir) (has_cover : Bool) (pe : List Char → Bool) :
    List Img → Bool → OpfState → OpfState
  | [], _, st => st
  | [img], first, st =>
      if pe (sanitize_name img.base) = false then
        { st with warnings := st.warnings + 1 }
      else if has_cover && first then cover_step st img
      else single_step st img
  | img :: imgB :: rest, first, st =>
      if pe (sanitize_name img.base) = false then
        opf_loop rd has_cover pe (imgB :: rest) false
          { st with warnings := st.warnings + 1 }
      else if has_cover && first then
        opf_loop rd has_cover pe (imgB :: rest) false (cover_step st img)
      else if is_double_group_start (sanitize_name img.base)
          (lowerName img.ext) imgB then
        opf_loop rd has_cover pe rest false (double_step rd pe st img imgB)
      else
        opf_loop rd has_cover pe (imgB :: rest) false (single_step st img)

/-- Lexicographic (code-point) comparison of filenames, as Python's `<` on
`str`. -/
def lex_lt : List Char → List Char → Bool
  | [], [] => false
  | [], _ :: _ => true
  | _ :: _, [] => false
  | a :: as, b :: bs => if a < b then true else if b < a then false else lex_lt as bs

/-- Non-strict filename order. -/
def lex_le (a b : List Char) : Bool := lex_lt a b || a == b

/-- Insertion into a sorted file list. -/
def insert_file (x : Img) : List Img → List Img
  | [] => [x]
  | y :: ys => if lex_le (fname x) (fname y) then x :: y :: ys else y :: insert_file x ys

/-- `sorted(os.listdir(images_dir))`: insertion sort by filename. -/
def sort_files : List Img → List Img
  | [] => []
  | x :: xs => insert_file x (sort_files xs)

/-- The extension whitelist of `generate_content_opf`. -/
def image_extensions : List (List Char) :=
  [(".jpg".toList), (".jpeg".toList), (".png".toList), (".gif".toList),
   (".bmp".toList), (".webp".toList), (".svg".toList)]

/-- The `image_files` list: the directory listing sorted by filename and
filtered to the recognized image extensions (lowercased). -/
def list_images (listing : List Img) : List Img :=
  (sort_files listing).filter (fun f => image_extensions.contains (lowerName f.ext))

/-- The layout-relevant result of `generate_content_opf`: the state machine
run over the sorted, filtered image list from the initial state. -/
def generate_content_opf (reading_direction : List Char) (has_cover : Bool)
    (pe : List Char → Bool) (listing : List Img) : OpfState :=
  opf_loop (normalize_direction reading_direction) has_cover pe
    (list_images listing) true opfInit

/-- The `<meta name="cover" .../>` line is written iff `has_cover` is set and
a cover image id was recorded; it carries that id. -/
def cover_meta_line (has_cover : Bool) (st : OpfState) : Option (List Char) :=
  if has_cover then st.cover_image_id else none

/-! ### Package assembler (`create_epub_from_temp`) -/

/-- Compression mode of one archive entry. -/
inductive Compression
  | stored
  | deflated
  deriving DecidableEq, Repr

/-- One entry of the output archive: archive-relative path (as path
components) and compression mode. -/
structure ZipEntry where
  arcname : List (List Char)
  compress_type : Compression
  deriving DecidableEq, Repr

/-- `os.path.relpath(full_path, temp_dir)`: drop the working-root prefix. -/
def relpath (tempDir p : List (List Char)) : List (List Char) :=
  p.drop tempDir.length

/-- The arcname of the root marker file. -/
def mimetype_arc : List (List Char) := [("mimetype".toList)]

/-- `create_epub_from_temp`: fails (raises) when the working tree or the
`mimetype` file is missing; otherwise writes `mimetype` first and stored,
then every other walked file deflated under its temp-relative path. -/
def create_epub_from_temp (tempDir : List (List Char))
    (temp_is_dir mimetype_present : Bool)
    (walked : List (List (List Char))) : Option (List ZipEntry) :=
  if temp_is_dir = false then none
  else if mimetype_present = false then none
  else some (ZipEntry.mk mimetype_arc Compression.stored ::
    walked.filterMap (fun p =>
      if p = tempDir ++ mimetype_arc then none
      else some (ZipEntry.mk (relpath tempDir p) Compression.deflated)))

/-! ### Derived notions used to state the properties -/

/-- The side the `_a` half of a double spread is emitted at: the current
`next_side`, flipped once when a blank page is inserted first. -/
def side_for_a (rd : Dir) (st : OpfState) : Side :=
  if blank_needed rd st then flip_side st.next_side else st.next_side

/-- The side tags of the non-center spine entries, in spine order. -/
def nonCenterSides (l : List SpineEntry) : List Side :=
  (l.filter (fun e => decide (e.side ≠ Side.center))).map (fun e => e.side)

/-- `altFrom s l` holds when `l` is exactly the strict left/right alternation
that starts at `s`. -/
def altFrom : Side → List Side → Bool
  | _, [] => true
  | s, x :: xs => (x == s) && altFrom (flip_side s) xs

/-- The side expected after consuming `l` starting from `s` (one flip per
element). -/
def nextAfter : Side → List Side → Side
  | s, [] => s
  | s, _ :: xs => nextAfter (flip_side s) xs

/-- Invariant of the spine state machine: the non-center sides emitted so far
alternate starting at right, `next_side` is the side the alternation expects
next, and `next_side` is never center. -/
def SpineInv (st : OpfState) : Prop :=
  altFrom Side.right (nonCenterSides st.spine) = true ∧
  st.next_side = nextAfter Side.right (nonCenterSides st.spine) ∧
  st.next_side ≠ Side.center

/-! ### Concrete runs used by the counterexamples -/

/-- Scenario A of the design document after the splitter stage: the single
page `s1.jpg` is kept, the double page `p2.jpg` has been split into
`p2_a.jpg` and `p2_b.jpg`. -/
def scenarioA_listing : List Img :=
  [Img.mk ("s1".toList) (".jpg".toList),
   Img.mk (sanitize_name ("p2".toList) ++ ['_', 'a']) (".jpg".toList),
   Img.mk (sanitize_name ("p2".toList) ++ ['_', 'b']) (".jpg".toList)]

/-- The spine-builder run of Scenario A: rtl, no cover, every page document
present. -/
def scenarioA_run : OpfState :=
  generate_content_opf ("rtl".toList) false (fun _ => true) scenarioA_listing

/-- An ltr run with a cover followed by a split double page: the images are
`0cover.jpg`, `p_a.jpg`, `p_b.jpg` and every page document is present. -/
def coverDouble_listing : List Img :=
  [Img.mk ("0cover".toList) (".jpg".toList),
   Img.mk ("p_a".toList) (".jpg".toList),
   Img.mk ("p_b".toList) (".jpg".toList)]

/-- The spine-builder run over `coverDouble_listing`: ltr, with cover. -/
def coverDouble_run : OpfState :=
  generate_content_opf ("ltr".toList) true (fun _ => true) coverDouble_listing

/-- A split attempt of `p.jpg` (2000×1000, rtl) that raises after two
effects, i.e. after the `_a` half image and its page document were written. -/
def failedSplit_result : FS :=
  process_double_image Dir.rtl 2000 1000 (some 2)
    (Img.mk ("p".toList) (".jpg".toList)) (FS.mk [("p.jpg".toList)] [])

/-! ### Sanitizer -/

/-- One sanitization step is idempotent on a single character: a kept
character is kept again, and the replacement underscore is itself kept. -/
theorem sanitizeChar_idem (c : Char) : sanitizeChar (sanitizeChar c) = sanitizeChar c := by
  by_cases hc : keepChar c = true
  · simp [sanitizeChar, hc]
  · have h1 : sanitizeChar c = '_' := by simp [sanitizeChar, hc]
    rw [h1]
    decide

/-- C6: the name-sanitization function is idempotent:
`sanitize_name (sanitize_name x) = sanitize_name x` for every input. -/
theorem sanitize_name_idempotent (x : List Char) :
    sanitize_name (sanitize_name x) = sanitize_name x := by
  induction x with
  | nil => rfl
  | cons c cs ih =>
      simp only [sanitize_name, List.map_cons] at ih ⊢
      rw [sanitizeChar_idem, ih]

/-! ### Splitter -/

/-- C4: for every image that passes the double-page test
(`width/height ≥ threshold` and `width > 1`) the splitter plans exactly two
crops; their widths are `width // 2` and `width - width // 2`, summing
exactly to the original width, and both heights equal the original height. -/
theorem splitter_dimensions (rd : Dir) (t : ℚ) (w h : Nat)
    (hd : is_double w h t = true) (hw : 1 < w) :
    split_plan rd t w h = some (split_parts rd w h) ∧
    (split_parts rd w h).length = 2 ∧
    ((split_parts rd w h).map (fun p => crop_width p.2)).sum = w ∧
    (∀ p ∈ split_parts rd w h, crop_height p.2 = h) ∧
    (∃ p ∈ split_parts rd w h, crop_width p.2 = w / 2) ∧
    (∃ p ∈ split_parts rd w h, crop_width p.2 = w - w / 2) := by
  have hhalf : w / 2 ≤ w := Nat.div_le_self w 2
  refine ⟨by simp [split_plan, hd, hw], ?_, ?_, ?_, ?_, ?_⟩ <;> cases rd <;>
    simp [split_parts, box_left, box_right, crop_width, crop_height] <;> omega

/-- Witness for `splitter_dimensions` at a 26×10 image and threshold 1.3. -/
theorem splitter_dimensions_witness :
    split_plan Dir.rtl ((13 : ℚ) / 10) 26 10 = some (split_parts Dir.rtl 26 10) ∧
    (split_parts Dir.rtl 26 10).length = 2 ∧
    ((split_parts Dir.rtl 26 10).map (fun p => crop_width p.2)).sum = 26 ∧
    (∀ p ∈ split_parts Dir.rtl 26 10, crop_height p.2 = 10) ∧
    (∃ p ∈ split_parts Dir.rtl 26 10, crop_width p.2 = 26 / 2) ∧
    (∃ p ∈ split_parts Dir.rtl 26 10, crop_width p.2 = 26 - 26 / 2) :=
  splitter_dimensions Dir.rtl ((13 : ℚ) / 10) 26 10
    (by simp [is_double, page_ratio]; norm_num) (by decide)

/-- C5: the role-to-crop mapping depends only on the reading direction (ltr:
`_a` = left crop, `_b` = right crop; rtl: `_a` = right crop, `_b` = left
crop); the halves are saved as `<sanitized-base>_a.<ext>` and
`<sanitized-base>_b.<ext>` with the original extension preserved, and after a
successful split the original file is removed from the images directory. -/
theorem splitter_role_mapping (w h : Nat) (base ext : List Char) (orig : Img) (fs : FS) :
    split_parts Dir.ltr w h = [('a', box_left w h), ('b', box_right w h)] ∧
    split_parts Dir.rtl w h = [('a', box_right w h), ('b', box_left w h)] ∧
    split_ops Dir.ltr w h (sanitize_name base) ext =
      [SplitOp.saveImage (part_file_name (sanitize_name base) 'a' ext) (box_left w h),
       SplitOp.saveText (page_doc_name (sanitize_name base ++ ['_', 'a'])),
       SplitOp.saveImage (part_file_name (sanitize_name base) 'b' ext) (box_right w h),
       SplitOp.saveText (page_doc_name (sanitize_name base ++ ['_', 'b']))] ∧
    split_ops Dir.rtl w h (sanitize_name base) ext =
      [SplitOp.saveImage (part_file_name (sanitize_name base) 'a' ext) (box_right w h),
       SplitOp.saveText (page_doc_name (sanitize_name base ++ ['_', 'a'])),
       SplitOp.saveImage (part_file_name (sanitize_name base) 'b' ext) (box_left w h),
       SplitOp.saveText (page_doc_name (sanitize_name base ++ ['_', 'b']))] ∧
    part_file_name (sanitize_name base) 'a' ext = sanitize_name base ++ ['_', 'a'] ++ ext ∧
    part_file_name (sanitize_name base) 'b' ext = sanitize_name base ++ ['_', 'b'] ++ ext ∧
    (∀ rd : Dir, (process_double_image rd w h none orig fs).images =
      (fs.images ++
        [part_file_name (sanitize_name orig.base) 'a' orig.ext,
         part_file_name (sanitize_name orig.base) 'b' orig.ext]).erase (fname orig)) := by
  refine ⟨rfl, rfl, rfl, rfl, rfl, rfl, ?_⟩
  intro rd
  cases rd <;>
    simp [process_double_image, split_ops, split_parts, part_ops, apply_op,
      List.append_assoc]

/-- Appending the image files created by a list of split effects. -/
theorem foldl_apply_op_images (ops : List SplitOp) (fs : FS) :
    (ops.foldl apply_op fs).images = fs.images ++ ops_images ops := by
  induction ops generalizing fs with
  | nil => simp [ops_images]
  | cons op rest ih =>
      cases op <;> simp [apply_op, ops_images, ih, List.append_assoc]

/-- Appending the page documents created by a list of split effects. -/
theorem foldl_apply_op_texts (ops : List SplitOp) (fs : FS) :
    (ops.foldl apply_op fs).texts = fs.texts ++ ops_texts ops := by
  induction ops generalizing fs with
  | nil => simp [ops_texts]
  | cons op rest ih =>
      cases op <;> simp [apply_op, ops_texts, ih, List.append_assoc]

/-- C7 (counterexample): a split of `p.jpg` that fails after the `_a` half
was written leaves the half image `p_a.jpg` and its page document
`page_p_a_F.xhtml` behind, while the original file is kept — the fallback is
not free of partial state. -/
theorem split_failure_counterexample :
    (part_file_name (sanitize_name ("p".toList)) 'a' (".jpg".toList)) ∈
      failedSplit_result.images ∧
    (page_doc_name (sanitize_name ("p".toList) ++ ['_', 'a'])) ∈
      failedSplit_result.texts ∧
    (fname (Img.mk ("p".toList) (".jpg".toList))) ∈ failedSplit_result.images := by
  decide

/-- C7 (amended): when a split attempt raises after `n` effects, the splitter
falls back to the single-page path — the original image stays in the images
directory (nothing is erased from the initial contents) and a page document
for the original is generated — but every half image and half page document
written before the failure point persists. -/
theorem split_failure_fallback (rd : Dir) (w h n : Nat) (orig : Img) (fs : FS) :
    (process_double_image rd w h (some n) orig fs).images =
      fs.images ++
        ops_images ((split_ops rd w h (sanitize_name orig.base) orig.ext).take n) ∧
    (process_double_image rd w h (some n) orig fs).texts =
      fs.texts ++
        ops_texts ((split_ops rd w h (sanitize_name orig.base) orig.ext).take n) ++
        [page_doc_name (sanitize_name orig.base)] := by
  constructor
  · simp [process_double_image, foldl_apply_op_images]
  · simp [process_double_image, foldl_apply_op_texts, List.append_assoc]

/-! ### Package assembler -/

/-- C8: in every archive the assembler produces, the `mimetype` file is the
first entry and is stored uncompressed; every other entry comes from a walked
file, is compressed, and its archive path is the walked path with the
working-root prefix removed. -/
theorem epub_archive_layout (tempDir : List (List Char))
    (walked : List (List (List Char))) (es : List ZipEntry)
    (hsome : create_epub_from_temp tempDir true true walked = some es) :
    es.head? = some (ZipEntry.mk mimetype_arc Compression.stored) ∧
    (∀ e ∈ es.tail, e.compress_type = Compression.deflated) ∧
    (∀ e ∈ es.tail, ∃ p ∈ walked,
      p ≠ tempDir ++ mimetype_arc ∧ e.arcname = relpath tempDir p) := by
  have hes : es = ZipEntry.mk mimetype_arc Compression.stored ::
      walked.filterMap (fun p =>
        if p = tempDir ++ mimetype_arc then none
        else some (ZipEntry.mk (relpath tempDir p) Compression.deflated)) := by
    simpa [create_epub_from_temp] using hsome.symm
  subst hes
  refine ⟨rfl, ?_, ?_⟩
  · intro e he
    simp only [List.tail_cons] at he
    rcases List.mem_filterMap.mp he with ⟨p, hp, hf⟩
    by_cases hpm : p = tempDir ++ mimetype_arc
    · rw [if_pos hpm] at hf
      exact absurd hf (by simp)
    · rw [if_neg hpm] at hf
      have := Option.some.inj hf
      subst this
      rfl
  · intro e he
    simp only [List.tail_cons] at he
    rcases List.mem_filterMap.mp he with ⟨p, hp, hf⟩
    by_cases hpm : p = tempDir ++ mimetype_arc
    · rw [if_pos hpm] at hf
      exact absurd hf (by simp)
    · rw [if_neg hpm] at hf
      have := Option.some.inj hf
      subst this
      exact ⟨p, hp, hpm, rfl⟩

/-- Witness for `epub_archive_layout` on a two-file working tree. -/
theorem epub_archive_layout_witness :
    (ZipEntry.mk mimetype_arc Compression.stored ::
        [ZipEntry.mk [("content.opf".toList)] Compression.deflated]).head? =
      some (ZipEntry.mk mimetype_arc Compression.stored) ∧
    (∀ e ∈ (ZipEntry.mk mimetype_arc Compression.stored ::
        [ZipEntry.mk [("content.opf".toList)] Compression.deflated]).tail,
      e.compress_type = Compression.deflated) ∧
    (∀ e ∈ (ZipEntry.mk mimetype_arc Compression.stored ::
        [ZipEntry.mk [("content.opf".toList)] Compression.deflated]).tail,
      ∃ p ∈ [[("temp".toList), ("mimetype".toList)],
             [("temp".toList), ("content.opf".toList)]],
        p ≠ [("temp".toList)] ++ mimetype_arc ∧
        e.arcname = relpath [("temp".toList)] p) :=
  epub_archive_layout [("temp".toList)]
    [[("temp".toList), ("mimetype".toList)],
     [("temp".toList), ("content.opf".toList)]]
    (ZipEntry.mk mimetype_arc Compression.stored ::
      [ZipEntry.mk [("content.opf".toList)] Compression.deflated])
    (by decide)

/-! ### Spine builder: concrete runs -/

/-- C3 (counterexample): Scenario A does not produce the spine the design
document claims.  With inputs `s1.jpg` (single) and `p2.jpg` (double, split
into `p2_a.jpg`/`p2_b.jpg`), filename sort order places the halves before
`s1.jpg`, so the spine is not `s1→right, blank_1→left, p2_a→right,
p2_b→left`. -/
theorem scenarioA_counterexample :
    ¬ (scenarioA_run.spine =
      [SpineEntry.mk (page_id_of ("s1".toList)) Side.right,
       SpineEntry.mk (blank_id_of 1) Side.left,
       SpineEntry.mk (page_id_of ("p2_a".toList)) Side.right,
       SpineEntry.mk (page_id_of ("p2_b".toList)) Side.left]) := by
  decide

/-- C3 (amended): for the Scenario A inputs the sorted image list is
`p2_a.jpg, p2_b.jpg, s1.jpg`, the double spread opens the book (so no blank
is needed), and the spine is exactly `p2_a→right, p2_b→left, s1→right` with
no blank page inserted. -/
theorem scenarioA_actual_spine :
    scenarioA_run.spine =
      [SpineEntry.mk (page_id_of ("p2_a".toList)) Side.right,
       SpineEntry.mk (page_id_of ("p2_b".toList)) Side.left,
       SpineEntry.mk (page_id_of ("s1".toList)) Side.right] ∧
    scenarioA_run.blank_counter = 0 := by
  decide

/-- C1 (counterexample): in the ltr run over `0cover.jpg, p_a.jpg, p_b.jpg`
with a cover, the double-spread unit is not the first spine entry (the
center cover precedes it) and its `_a` half lands on the right although the
desired leading side for ltr is left — the side required to be next did not
match — yet no blank page was inserted, because the cover never sets
`last_side`. -/
theorem blank_rule_counterexample :
    coverDouble_run.spine =
      [SpineEntry.mk (page_id_of ("0cover".toList)) Side.center,
       SpineEntry.mk (page_id_of ("p_a".toList)) Side.right,
       SpineEntry.mk (page_id_of ("p_b".toList)) Side.left] ∧
    coverDouble_run.blank_counter = 0 ∧
    desired_side_a (normalize_direction ("ltr".toList)) = Side.left := by
  decide

/-! ### Spine builder: the double-spread step -/

/-- Full characterization of the double-spread branch: the blank page is
inserted exactly when `last_side` is set and `next_side` differs from
`desired_side_a`; it carries the current `next_side` and bumps
`blank_counter`; the `_a` half follows at `side_for_a`, the `_b` half (when
its page document exists) at the flipped side; a missing `_b` page document
is one extra warning. -/
theorem double_step_spec (rd : Dir) (pe : List Char → Bool) (st : OpfState)
    (imgA imgB : Img) :
    (double_step rd pe st imgA imgB).blank_counter =
      st.blank_counter + (if blank_needed rd st then 1 else 0) ∧
    (double_step rd pe st imgA imgB).spine =
      st.spine ++
        (if blank_needed rd st then
          [SpineEntry.mk (blank_id_of (st.blank_counter + 1)) st.next_side] else []) ++
        [SpineEntry.mk (page_id_of (sanitize_name imgA.base)) (side_for_a rd st)] ++
        (if pe (sanitize_name imgB.base) then
          [SpineEntry.mk (page_id_of (sanitize_name imgB.base))
            (flip_side (side_for_a rd st))]
         else []) ∧
    (double_step rd pe st imgA imgB).warnings =
      st.warnings + (if pe (sanitize_name imgB.base) then 0 else 1) ∧
    (double_step rd pe st imgA imgB).next_side =
      (if pe (sanitize_name imgB.base) then flip_side (flip_side (side_for_a rd st))
       else flip_side (side_for_a rd st)) ∧
    (double_step rd pe st imgA imgB).cover_image_id = st.cover_image_id := by
  by_cases hb : blank_needed rd st = true <;>
    by_cases hp : pe (sanitize_name imgB.base) = true <;>
      simp [double_step, maybe_blank_before_double, emit_page, add_blank_page,
        add_spine_page, side_for_a, hb, hp, List.append_assoc]

/-- C1 (amended): when the traversal reaches a double-spread unit (page
document of the `_a` half present, not the cover position, `_b` sibling
detected), it advances by two images via the double-spread branch, and a
blank page is inserted immediately before the unit if and only if
`last_side` is set — i.e. some earlier left/right spine entry exists — and
`next_side` differs from the unit's desired leading side (right for rtl,
left for ltr); in particular no blank is ever inserted before the very first
spine entry, and the inserted blank is assigned the current `next_side` and
increments `blank_counter`. -/
theorem blank_rule_amended (rd : Dir) (hc : Bool) (pe : List Char → Bool)
    (imgA imgB : Img) (rest : List Img) (first : Bool) (st : OpfState)
    (hA : pe (sanitize_name imgA.base) = true)
    (hcov : (hc && first) = false)
    (hdet : is_double_group_start (sanitize_name imgA.base) (lowerName imgA.ext) imgB
      = true) :
    opf_loop rd hc pe (imgA :: imgB :: rest) first st =
      opf_loop rd hc pe rest false (double_step rd pe st imgA imgB) ∧
    (double_step rd pe st imgA imgB).blank_counter =
      st.blank_counter + (if blank_needed rd st then 1 else 0) ∧
    (double_step rd pe st imgA imgB).spine =
      st.spine ++
        (if blank_needed rd st then
          [SpineEntry.mk (blank_id_of (st.blank_counter + 1)) st.next_side] else []) ++
        [SpineEntry.mk (page_id_of (sanitize_name imgA.base)) (side_for_a rd st)] ++
        (if pe (sanitize_name imgB.base) then
          [SpineEntry.mk (page_id_of (sanitize_name imgB.base))
            (flip_side (side_for_a rd st))]
         else []) := by
  refine ⟨?_, (double_step_spec rd pe st imgA imgB).1,
    (double_step_spec rd pe st imgA imgB).2.1⟩
  simp [opf_loop, hA, hcov, hdet]

/-- Witness for `blank_rule_amended`: an rtl run starting directly at a
double spread (`p_a.jpg`, `p_b.jpg`), no cover. -/
theorem blank_rule_amended_witness :
    opf_loop Dir.rtl false (fun _ => true)
        [Img.mk ("p_a".toList) (".jpg".toList), Img.mk ("p_b".toList) (".jpg".toList)]
        true opfInit =
      opf_loop Dir.rtl false (fun _ => true) [] false
        (double_step Dir.rtl (fun _ => true) opfInit
          (Img.mk ("p_a".toList) (".jpg".toList))
          (Img.mk ("p_b".toList) (".jpg".toList))) ∧
    (double_step Dir.rtl (fun _ => true) opfInit
        (Img.mk ("p_a".toList) (".jpg".toList))
        (Img.mk ("p_b".toList) (".jpg".toList))).blank_counter =
      opfInit.blank_counter + (if blank_needed Dir.rtl opfInit then 1 else 0) ∧
    (double_step Dir.rtl (fun _ => true) opfInit
        (Img.mk ("p_a".toList) (".jpg".toList))
        (Img.mk ("p_b".toList) (".jpg".toList))).spine =
      opfInit.spine ++
        (if blank_needed Dir.rtl opfInit then
          [SpineEntry.mk (blank_id_of (opfInit.blank_counter + 1)) opfInit.next_side]
         else []) ++
        [SpineEntry.mk
          (page_id_of (sanitize_name (Img.mk ("p_a".toList) (".jpg".toList)).base))
          (side_for_a Dir.rtl opfInit)] ++
        (if (fun _ => true) (sanitize_name (Img.mk ("p_b".toList) (".jpg".toList)).base)
            then
          [SpineEntry.mk
            (page_id_of (sanitize_name (Img.mk ("p_b".toList) (".jpg".toList)).base))
            (flip_side (side_for_a Dir.rtl opfInit))]
         else []) :=
  blank_rule_amended Dir.rtl false (fun _ => true)
    (Img.mk ("p_a".toList) (".jpg".toList)) (Img.mk ("p_b".toList) (".jpg".toList))
    [] true opfInit rfl rfl (by decide)

/-- C9: when a double-spread unit is detected but the `_b` half's page
document is missing, the builder emits the `_a` half into the spine
(consuming the side a blank may first have repaired), prints one warning,
emits nothing for the `_b` half, and still advances by two images — the `_a`
half stays in the spine without its partner. -/
theorem double_missing_b (rd : Dir) (hc : Bool) (pe : List Char → Bool)
    (imgA imgB : Img) (rest : List Img) (st : OpfState)
    (hA : pe (sanitize_name imgA.base) = true)
    (hdet : is_double_group_start (sanitize_name imgA.base) (lowerName imgA.ext) imgB
      = true)
    (hB : pe (sanitize_name imgB.base) = false) :
    opf_loop rd hc pe (imgA :: imgB :: rest) false st =
      opf_loop rd hc pe rest false (double_step rd pe st imgA imgB) ∧
    (double_step rd pe st imgA imgB).spine =
      st.spine ++
        (if blank_needed rd st then
          [SpineEntry.mk (blank_id_of (st.blank_counter + 1)) st.next_side] else []) ++
        [SpineEntry.mk (page_id_of (sanitize_name imgA.base)) (side_for_a rd st)] ∧
    (double_step rd pe st imgA imgB).warnings = st.warnings + 1 ∧
    (double_step rd pe st imgA imgB).next_side = flip_side (side_for_a rd st) := by
  obtain ⟨_, hsp, hw, hns, _⟩ := double_step_spec rd pe st imgA imgB
  refine ⟨by simp [opf_loop, hA, hdet], ?_, ?_, ?_⟩
  · rw [hsp, hB]
    simp
  · rw [hw, hB]
    simp
  · rw [hns, hB]
    simp

/-- Witness for `double_missing_b`: rtl, no cover, `p_a.jpg` with its page
document present and `p_b.jpg` with its page document missing. -/
theorem double_missing_b_witness :
    opf_loop Dir.rtl false (fun s => !(s == ("p_b".toList)))
        [Img.mk ("p_a".toList) (".jpg".toList), Img.mk ("p_b".toList) (".jpg".toList)]
        false opfInit =
      opf_loop Dir.rtl false (fun s => !(s == ("p_b".toList))) [] false
        (double_step Dir.rtl (fun s => !(s == ("p_b".toList))) opfInit
          (Img.mk ("p_a".toList) (".jpg".toList))
          (Img.mk ("p_b".toList) (".jpg".toList))) ∧
    (double_step Dir.rtl (fun s => !(s == ("p_b".toList))) opfInit
        (Img.mk ("p_a".toList) (".jpg".toList))
        (Img.mk ("p_b".toList) (".jpg".toList))).spine =
      opfInit.spine ++
        (if blank_needed Dir.rtl opfInit then
          [SpineEntry.mk (blank_id_of (opfInit.blank_counter + 1)) opfInit.next_side]
         else []) ++
        [SpineEntry.mk
          (page_id_of (sanitize_name (Img.mk ("p_a".toList) (".jpg".toList)).base))
          (side_for_a Dir.rtl opfInit)] ∧
    (double_step Dir.rtl (fun s => !(s == ("p_b".toList))) opfInit
        (Img.mk ("p_a".toList) (".jpg".toList))
        (Img.mk ("p_b".toList) (".jpg".toList))).warnings = opfInit.warnings + 1 ∧
    (double_step Dir.rtl (fun s => !(s == ("p_b".toList))) opfInit
        (Img.mk ("p_a".toList) (".jpg".toList))
        (Img.mk ("p_b".toList) (".jpg".toList))).next_side =
      flip_side (side_for_a Dir.rtl opfInit) :=
  double_missing_b Dir.rtl false (fun s => !(s == ("p_b".toList)))
    (Img.mk ("p_a".toList) (".jpg".toList)) (Img.mk ("p_b".toList) (".jpg".toList))
    [] opfInit (by decide) (by decide) (by decide)

/-! ### Spine builder: the alternation invariant -/

/-- Flipping a side never yields center. -/
theorem flip_side_ne_center (s : Side) : flip_side s ≠ Side.center := by
  cases s <;> decide

/-- `nonCenterSides` distributes over append. -/
theorem nonCenterSides_append (l m : List SpineEntry) :
    nonCenterSides (l ++ m) = nonCenterSides l ++ nonCenterSides m := by
  simp [nonCenterSides, List.filter_append]

/-- `altFrom` over an append splits at the expected middle side. -/
theorem altFrom_append (s : Side) (l m : List Side) :
    altFrom s (l ++ m) = (altFrom s l && altFrom (nextAfter s l) m) := by
  induction l generalizing s with
  | nil => simp [altFrom, nextAfter]
  | cons x xs ih => simp [altFrom, nextAfter, ih, Bool.and_assoc]

/-- `nextAfter` over an append composes. -/
theorem nextAfter_append (s : Side) (l m : List Side) :
    nextAfter s (l ++ m) = nextAfter (nextAfter s l) m := by
  induction l generalizing s with
  | nil => simp [nextAfter]
  | cons x xs ih => simp [nextAfter, ih]

/-- `add_spine_page` called at the current `next_side` — the only way any
left/right entry ever enters the spine — preserves the alternation
invariant. -/
theorem SpineInv_add (st : OpfState) (pid : List Char) (h : SpineInv st) :
    SpineInv (add_spine_page st pid st.next_side) := by
  obtain ⟨h1, h2, h3⟩ := h
  have hnc : nonCenterSides (st.spine ++ [SpineEntry.mk pid st.next_side]) =
      nonCenterSides st.spine ++ [st.next_side] := by
    rw [nonCenterSides_append]
    simp [nonCenterSides, h3]
  refine ⟨?_, ?_, ?_⟩
  · show altFrom Side.right
      (nonCenterSides (st.spine ++ [SpineEntry.mk pid st.next_side])) = true
    rw [hnc, altFrom_append, h1, Bool.true_and, ← h2]
    simp [altFrom]
  · show flip_side st.next_side =
      nextAfter Side.right
        (nonCenterSides (st.spine ++ [SpineEntry.mk pid st.next_side]))
    rw [hnc, nextAfter_append, ← h2]
    simp [nextAfter]
  · exact flip_side_ne_center st.next_side

/-- `emit_page` preserves the alternation invariant. -/
theorem SpineInv_emit (st : OpfState) (pid iid : List Char) (h : SpineInv st) :
    SpineInv (emit_page st pid iid) :=
  SpineInv_add { st with manifest := st.manifest ++ [pid, iid] } pid h

/-- `add_blank_page` at the current `next_side` preserves the alternation
invariant. -/
theorem SpineInv_blank (st : OpfState) (h : SpineInv st) :
    SpineInv (add_blank_page st st.next_side) :=
  SpineInv_add
    { st with
      blank_counter := st.blank_counter + 1
      manifest := st.manifest ++ [blank_id_of (st.blank_counter + 1)] }
    (blank_id_of (st.blank_counter + 1)) h

/-- The simple-page branch preserves the alternation invariant. -/
theorem SpineInv_single (st : OpfState) (img : Img) (h : SpineInv st) :
    SpineInv (single_step st img) :=
  SpineInv_emit st _ _ h

/-- The cover branch emits only a center entry and leaves the side tracking
untouched, so it preserves the alternation invariant. -/
theorem SpineInv_cover (st : OpfState) (img : Img) (h : SpineInv st) :
    SpineInv (cover_step st img) := by
  obtain ⟨h1, h2, h3⟩ := h
  have hnc : nonCenterSides
      (st.spine ++ [SpineEntry.mk (page_id_of (sanitize_name img.base)) Side.center]) =
      nonCenterSides st.spine := by
    rw [nonCenterSides_append]
    simp [nonCenterSides]
  refine ⟨?_, ?_, h3⟩
  · show altFrom Side.right (nonCenterSides (st.spine ++ _)) = true
    rw [hnc]
    exact h1
  · show st.next_side = nextAfter Side.right (nonCenterSides (st.spine ++ _))
    rw [hnc]
    exact h2

/-- The double-spread branch preserves the alternation invariant: the
optional blank, the `_a` half and the optional `_b` half each consume the
then-current `next_side`. -/
theorem SpineInv_double (rd : Dir) (pe : List Char → Bool) (st : OpfState)
    (imgA imgB : Img) (h : SpineInv st) :
    SpineInv (double_step rd pe st imgA imgB) := by
  have h1 : SpineInv (maybe_blank_before_double rd st) := by
    unfold maybe_blank_before_double
    split
    · exact SpineInv_blank st h
    · exact h
  have h2 : SpineInv (emit_page (maybe_blank_before_double rd st)
      (page_id_of (sanitize_name imgA.base)) (img_id_of (sanitize_name imgA.base))) :=
    SpineInv_emit _ _ _ h1
  simp only [double_step]
  split
  · exact SpineInv_emit _ _ _ h2
  · exact h2

/-- The whole traversal preserves the alternation invariant (strong
induction on the number of remaining images, since a double spread consumes
two). -/
theorem opf_loop_inv_aux (rd : Dir) (hc : Bool) (pe : List Char → Bool) :
    ∀ (n : Nat) (imgs : List Img), imgs.length ≤ n → ∀ (first : Bool) (st : OpfState),
      SpineInv st → SpineInv (opf_loop rd hc pe imgs first st) := by
  intro n
  induction n with
  | zero =>
      intro imgs hlen first st h
      have hne : imgs = [] := List.length_eq_zero.mp (Nat.le_zero.mp hlen)
      subst hne
      simpa [opf_loop] using h
  | succ n ih =>
      intro imgs hlen first st h
      rcases imgs with _ | ⟨img, _ | ⟨imgB, rest⟩⟩
      · simpa [opf_loop] using h
      · simp only [opf_loop]
        split
        · exact h
        · split
          · exact SpineInv_cover st img h
          · exact SpineInv_single st img h
      · have hlen1 : (imgB :: rest).length ≤ n := by
          simp only [List.length_cons] at hlen ⊢
          omega
        have hlen2 : rest.length ≤ n := by
          simp only [List.length_cons] at hlen
          omega
        simp only [opf_loop]
        split
        · exact ih _ hlen1 false _ h
        · split
          · exact ih _ hlen1 false _ (SpineInv_cover st img h)
          · split
            · exact ih _ hlen2 false _ (SpineInv_double rd pe st img imgB h)
            · exact ih _ hlen1 false _ (SpineInv_single st img h)

/-- The run of `generate_content_opf` satisfies the alternation invariant. -/
theorem generate_content_opf_inv (rdStr : List Char) (hc : Bool)
    (pe : List Char → Bool) (listing : List Img) :
    SpineInv (generate_content_opf rdStr hc pe listing) :=
  opf_loop_inv_aux (normalize_direction rdStr) hc pe (list_images listing).length
    (list_images listing) le_rfl true opfInit ⟨rfl, rfl, by decide⟩

/-- C2: in every spine `generate_content_opf` produces, the side tags of the
non-center entries strictly alternate between left and right starting at
right — the center cover neither participates in nor disturbs the
alternation; in particular a run with no cover and no double spreads
alternates starting at right. -/
theorem spine_sides_alternate (rdStr : List Char) (hc : Bool)
    (pe : List Char → Bool) (listing : List Img) :
    altFrom Side.right
      (nonCenterSides (generate_content_opf rdStr hc pe listing).spine) = true :=
  (generate_content_opf_inv rdStr hc pe listing).1

/-! ### Spine builder: no cover after position 0 -/

/-- The side of the `_a` half is never center. -/
theorem side_for_a_ne_center (rd : Dir) (st : OpfState)
    (h : st.next_side ≠ Side.center) : side_for_a rd st ≠ Side.center := by
  unfold side_for_a
  split
  · exact flip_side_ne_center st.next_side
  · exact h

/-- The double-spread branch records no cover and adds no center entry. -/
theorem double_step_no_center (rd : Dir) (pe : List Char → Bool) (st : OpfState)
    (imgA imgB : Img) (h : st.next_side ≠ Side.center) :
    (double_step rd pe st imgA imgB).cover_image_id = st.cover_image_id ∧
    (double_step rd pe st imgA imgB).next_side ≠ Side.center ∧
    ∀ e ∈ (double_step rd pe st imgA imgB).spine,
      e ∈ st.spine ∨ e.side ≠ Side.center := by
  obtain ⟨_, hsp, _, hns, hcov⟩ := double_step_spec rd pe st imgA imgB
  refine ⟨hcov, ?_, ?_⟩
  · rw [hns]
    split
    · exact flip_side_ne_center _
    · exact flip_side_ne_center _
  · intro e he
    rw [hsp] at he
    simp only [List.append_assoc, List.mem_append] at he
    rcases he with he | he | he | he
    · exact Or.inl he
    · right
      split at he
      · simp only [List.mem_singleton] at he
        rw [he]
        exact h
      · simp at he
    · right
      simp only [List.mem_singleton] at he
      rw [he]
      exact side_for_a_ne_center rd st h
    · right
      split at he
      · simp only [List.mem_singleton] at he
        rw [he]
        exact flip_side_ne_center _
      · simp at he

/-- The simple-page branch records no cover and adds no center entry. -/
theorem single_step_no_center (st : OpfState) (img : Img)
    (h : st.next_side ≠ Side.center) :
    (single_step st img).cover_image_id = st.cover_image_id ∧
    (single_step st img).next_side ≠ Side.center ∧
    ∀ e ∈ (single_step st img).spine, e ∈ st.spine ∨ e.side ≠ Side.center := by
  refine ⟨rfl, flip_side_ne_center _, ?_⟩
  intro e he
  simp only [single_step, emit_page, add_spine_page, List.mem_append] at he
  rcases he with he | he
  · exact Or.inl he
  · right
    simp only [List.mem_singleton] at he
    rw [he]
    exact h

/-- Once the traversal is past position 0 (`first = false`), it never
records a cover image and never emits a center spine entry. -/
theorem opf_loop_no_cover_aux (rd : Dir) (hc : Bool) (pe : List Char → Bool) :
    ∀ (n : Nat) (imgs : List Img), imgs.length ≤ n → ∀ (st : OpfState),
      st.next_side ≠ Side.center →
      ((opf_loop rd hc pe imgs false st).cover_image_id = st.cover_image_id ∧
       (opf_loop rd hc pe imgs false st).next_side ≠ Side.center ∧
       ∀ e ∈ (opf_loop rd hc pe imgs false st).spine,
         e ∈ st.spine ∨ e.side ≠ Side.center) := by
  intro n
  induction n with
  | zero =>
      intro imgs hlen st h
      have hne : imgs = [] := List.length_eq_zero.mp (Nat.le_zero.mp hlen)
      subst hne
      exact ⟨rfl, h, fun e he => Or.inl he⟩
  | succ n ih =>
      intro imgs hlen st h
      rcases imgs with _ | ⟨img, _ | ⟨imgB, rest⟩⟩
      · exact ⟨rfl, h, fun e he => Or.inl he⟩
      · simp only [opf_loop]
        split
        · exact ⟨rfl, h, fun e he => Or.inl he⟩
        · split
          · next hcc => simp at hcc
          · exact single_step_no_center st img h
      · have hlen1 : (imgB :: rest).length ≤ n := by
          simp only [List.length_cons] at hlen ⊢
          omega
        have hlen2 : rest.length ≤ n := by
          simp only [List.length_cons] at hlen
          omega
        simp only [opf_loop]
        split
        · exact ih (imgB :: rest) hlen1 _ h
        · split
          · next hcc => simp at hcc
          · split
            · obtain ⟨dc, dn, ds⟩ := double_step_no_center rd pe st img imgB h
              obtain ⟨ic, inn, isp⟩ := ih rest hlen2 _ dn
              refine ⟨ic.trans dc, inn, ?_⟩
              intro e he
              rcases isp e he with he2 | he2
              · exact ds e he2
              · exact Or.inr he2
            · obtain ⟨dc, dn, ds⟩ := single_step_no_center st img h
              obtain ⟨ic, inn, isp⟩ := ih (imgB :: rest) hlen1 _ dn
              refine ⟨ic.trans dc, inn, ?_⟩
              intro e he
              rcases isp e he with he2 | he2
              · exact ds e he2
              · exact Or.inr he2

/-- C10: cover status is bound to list position 0.  When `has_cover` is set
but the first image of the sorted list has no page document, that image is
skipped with a warning, the traversal continues at position 1 where nothing
can become a cover any more: the run emits no center spine entry, records no
cover image id, and the cover metadata line is omitted. -/
theorem cover_missing_page_doc (rdStr : List Char) (pe : List Char → Bool)
    (listing : List Img) (img0 : Img) (rest : List Img)
    (hlist : list_images listing = img0 :: rest)
    (h0 : pe (sanitize_name img0.base) = false) :
    generate_content_opf rdStr true pe listing =
      opf_loop (normalize_direction rdStr) true pe rest false
        { opfInit with warnings := opfInit.warnings + 1 } ∧
    (generate_content_opf rdStr true pe listing).cover_image_id = none ∧
    (∀ e ∈ (generate_content_opf rdStr true pe listing).spine,
      e.side ≠ Side.center) ∧
    cover_meta_line true (generate_content_opf rdStr true pe listing) = none := by
  have heq : generate_content_opf rdStr true pe listing =
      opf_loop (normalize_direction rdStr) true pe rest false
        { opfInit with warnings := opfInit.warnings + 1 } := by
    unfold generate_content_opf
    rw [hlist]
    cases rest with
    | nil => simp [opf_loop, h0]
    | cons r rs => simp [opf_loop, h0]
  obtain ⟨hcov, hnext, hsp⟩ := opf_loop_no_cover_aux (normalize_direction rdStr) true pe
    rest.length rest le_rfl { opfInit with warnings := opfInit.warnings + 1 }
    (by decide)
  have hnone : (generate_content_opf rdStr true pe listing).cover_image_id = none := by
    rw [heq, hcov]
    rfl
  refine ⟨heq, hnone, ?_, ?_⟩
  · intro e he
    rw [heq] at he
    rcases hsp e he with h2 | h2
    · simp [opfInit] at h2
    · exact h2
  · simp [cover_meta_line, hnone]

/-- Witness for `cover_missing_page_doc`: a one-image rtl run whose only
image lacks its page document. -/
theorem cover_missing_page_doc_witness :
    generate_content_opf ("rtl".toList) true (fun _ => false)
        [Img.mk ("x".toList) (".jpg".toList)] =
      opf_loop (normalize_direction ("rtl".toList)) true (fun _ => false) [] false
        { opfInit with warnings := opfInit.warnings + 1 } ∧
    (generate_content_opf ("rtl".toList) true (fun _ => false)
        [Img.mk ("x".toList) (".jpg".toList)]).cover_image_id = none ∧
    (∀ e ∈ (generate_content_opf ("rtl".toList) true (fun _ => false)
        [Img.mk ("x".toList) (".jpg".toList)]).spine, e.side ≠ Side.center) ∧
    cover_meta_line true (generate_content_opf ("rtl".toList) true (fun _ => false)
        [Img.mk ("x".toList) (".jpg".toList)]) = none :=
  cover_missing_page_doc ("rtl".toList) (fun _ => false)
    [Img.mk ("x".toList) (".jpg".toList)] (Img.mk ("x".toList) (".jpg".toList)) []
    (by decide) rfl

end Panel2EPUB
